import Mathlib

/-!
Verification of the mosaic package-manager core (CLI crate).

Shallow embedding of:
  * `src/cli/src/installer.rs`  — `install_package`, `resolve_and_install`
  * `src/cli/src/lockfile.rs`   — `Lockfile`, `LockedPackage`, `save`
  * `src/cli/src/xml_handler.rs` — `inject_module_script`,
    `update_module_script`, `remove_module_script`

Rust `String`/`&str` values are modelled as `List Char` (`Str`); byte blobs
as `List Nat`.  The registry HTTP client, the SHA-256 function of the
external `sha2` crate, and zip extraction are external collaborators and are
supplied as oracle fields of `RegistryEnv`.  The `.poly` project document is
modelled — as the specification itself prescribes — as the sequence of
structural events the `quick_xml` reader produces, each event carrying its
raw bytes, so that re-emitting an event reproduces its bytes exactly.
-/

deriving instance DecidableEq for Except

/-- Rust strings, modelled as lists of characters. -/
abbrev Str := List Char

/-- Shorthand: the character list of a Lean string literal. -/
def strL (s : String) : Str := s.data

/-- Byte blobs (zip archives downloaded from the registry). -/
abbrev Bytes := List Nat

/-- Worker for `splitChar`, carrying the (reversed) current piece. -/
def splitCharAux (c : Char) : List Char → List Char → List Str
  | [], acc => [acc.reverse]
  | x :: xs, acc =>
    if x = c then acc.reverse :: splitCharAux c xs []
    else splitCharAux c xs (x :: acc)

/-- Rust `str::split(c).collect::<Vec<_>>()`: split at every occurrence of
`c`, keeping empty pieces (so `"@v"` splits into `["", "v"]`). -/
def splitChar (c : Char) (l : Str) : List Str := splitCharAux c l []

/-- ASCII whitespace (the whitespace actually occurring in `.poly` files). -/
def isWSChar (c : Char) : Bool := c = ' ' ∨ c = '\t' ∨ c = '\n' ∨ c = '\r'

/-- Rust `str::trim`: drop whitespace from both ends. -/
def trimChar (l : Str) : Str :=
  ((l.dropWhile isWSChar).reverse.dropWhile isWSChar).reverse

/-- Rust `Vec::join(sep)`. -/
def joinSep (sep : Str) : List Str → Str
  | [] => []
  | [x] => x
  | x :: y :: xs => x ++ sep ++ joinSep sep (y :: xs)

/-- No piece produced by `splitCharAux` contains the separator. -/
theorem splitCharAux_no_sep (c : Char) :
    ∀ (l acc : List Char), c ∉ acc →
      ∀ p ∈ splitCharAux c l acc, c ∉ p := by
  intro l
  induction l with
  | nil =>
    intro acc hacc p hp
    simp [splitCharAux] at hp
    subst hp
    simpa using hacc
  | cons x xs ih =>
    intro acc hacc p hp
    by_cases hx : x = c
    · simp [splitCharAux, hx] at hp
      rcases hp with hp | hp
      · subst hp; simpa using hacc
      · exact ih [] (by simp) p hp
    · simp [splitCharAux, hx] at hp
      refine ih (x :: acc) ?_ p hp
      intro hmem
      rcases List.mem_cons.mp hmem with h | h
      · exact hx h.symm
      · exact hacc h

/-- No piece produced by `splitChar` contains the separator. -/
theorem splitChar_no_sep (c : Char) (l : Str) :
    ∀ p ∈ splitChar c l, c ∉ p :=
  splitCharAux_no_sep c l [] (by simp)

/-- Appending one element to a joined list extends the join by one
separator and the element (Rust `join` then `push_str`). -/
theorem joinSep_append_singleton (sep x : Str) :
    ∀ (l : List Str), l ≠ [] →
      joinSep sep l ++ sep ++ x = joinSep sep (l ++ [x]) := by
  intro l
  induction l with
  | nil => intro h; exact absurd rfl h
  | cons a t ih =>
    intro _
    cases t with
    | nil => simp [joinSep]
    | cons b t' =>
      have := ih (by simp)
      simp only [joinSep, List.cons_append, List.append_assoc] at this ⊢
      rw [show t'.append [x] = t' ++ [x] from rfl, ← this]

/-! ## XML event model (`src/cli/src/xml_handler.rs`)

The `.poly` document is a sequence of `quick_xml` events.  Every event
carries the raw bytes it had in the file: `text` holds the still-escaped
character data (the `quick_xml` reader does not unescape, and the writer
re-emits captured events byte-for-byte), and newly constructed text events
are built through `escapeXml`, modelling `BytesText::new`'s automatic
escaping noted in the source. -/

/-- A structural event of the document.  `other` covers declarations,
comments, CData and processing instructions: the Rust code routes all of
them through the catch-all arm that writes them back unchanged. -/
inductive XmlEvent where
  | startE (tag : Str) (attrs : List (Str × Str))
  | endE (tag : Str)
  | text (t : Str)
  | emptyE (tag : Str) (attrs : List (Str × Str))
  | other (raw : Str)
deriving DecidableEq, Repr

/-- `quick_xml` `Name::local_name`: the part after the first `:`, if any. -/
def localName (t : Str) : Str :=
  if ':' ∈ t then (t.dropWhile (fun c => ¬ c = ':')).drop 1 else t

/-- `BytesStart::try_get_attribute`: first attribute with the given key. -/
def getAttr (attrs : List (Str × Str)) (key : Str) : Option Str :=
  (attrs.find? (fun a => a.1 = key)).map (fun a => a.2)

/-- Escape one character the way `quick_xml::escape::escape` does. -/
def escapeChar (c : Char) : Str :=
  if c = '&' then strL "&amp;"
  else if c = '<' then strL "&lt;"
  else if c = '>' then strL "&gt;"
  else if c = '\'' then strL "&apos;"
  else if c = '"' then strL "&quot;"
  else [c]

/-- `quick_xml` escaping applied by `BytesText::new` to newly built text. -/
def escapeXml (t : Str) : Str := (t.map escapeChar).flatten

/-- Serialization of attributes as the `quick_xml` writer emits them. -/
def serializeAttrs : List (Str × Str) → Str
  | [] => []
  | (k, v) :: rest => ' ' :: (k ++ '=' :: '"' :: v ++ '"' :: serializeAttrs rest)

/-- Serialization of one event as the `quick_xml` writer emits it. -/
def serializeEvent : XmlEvent → Str
  | .startE tag attrs => '<' :: (tag ++ serializeAttrs attrs) ++ ['>']
  | .endE tag => '<' :: '/' :: (tag ++ ['>'])
  | .text t => t
  | .emptyE tag attrs => '<' :: (tag ++ serializeAttrs attrs) ++ ['/', '>']
  | .other raw => raw

/-- The bytes of a document: concatenation of its events' bytes. -/
def serializeEvents (doc : List XmlEvent) : Str := (doc.map serializeEvent).flatten

/-- Tag and attribute constants of the `.poly` dialect. -/
def itemTag : Str := strL "Item"
def stringTag : Str := strL "string"
def propsTag : Str := strL "Properties"
def classAttr : Str := strL "class"
def nameAttr : Str := strL "name"
def ssClass : Str := strL "ScriptService"
def msClass : Str := strL "ModuleScript"
def nameVal : Str := strL "Name"
def sourceVal : Str := strL "Source"
def ind2 : Str := strL "\n  "
def ind4 : Str := strL "\n    "
def ind6 : Str := strL "\n      "
def ind8 : Str := strL "\n        "

/-- The fresh ModuleScript `Item` node written by `update_module_script`
(lines 184–224) — and, except for indentation events around it, also by
`inject_module_script` (lines 48–89).  The leading `"\n    "` text is part
of what the update path writes. -/
def replacementEvents (name src : Str) : List XmlEvent :=
  [.text ind4,
   .startE itemTag [(classAttr, msClass)],
   .text ind6,
   .startE propsTag [],
   .text ind8,
   .startE stringTag [(nameAttr, sourceVal)],
   .text (escapeXml src),
   .endE stringTag,
   .text ind8,
   .startE stringTag [(nameAttr, nameVal)],
   .text (escapeXml name),
   .endE stringTag,
   .text ind6,
   .endE propsTag,
   .text ind4,
   .endE itemTag]

/-- What `inject_module_script` writes just before the closing
`ScriptService` tag (lines 48–92): the fresh node plus the trailing
indentation for the closing tag. -/
def injectionEvents (name src : Str) : List XmlEvent :=
  replacementEvents name src ++ [.text ind2]

/-! ### `update_module_script` (xml_handler.rs lines 119–246) -/

/-- Mutable locals of the `update_module_script` loop. -/
structure UState where
  inSS : Bool
  depth : Int
  capturing : Bool
  buffer : List XmlEvent
  isTarget : Bool
  capturingName : Bool
  out : List XmlEvent
deriving DecidableEq, Repr

/-- The flag updates of the `match &event` block of `update_module_script`
(lines 136–176), executed before the capture/pass-through step. -/
def updFlags (name : Str) (st : UState) : XmlEvent → UState
  | .startE tag attrs =>
    let st := { st with depth := st.depth + 1 }
    if localName tag = itemTag then
      match getAttr attrs classAttr with
      | some v =>
        if v = ssClass then { st with inSS := true }
        else if st.inSS ∧ v = msClass ∧ st.depth = 3 then { st with capturing := true }
        else st
      | none => st
    else if st.capturing ∧ localName tag = stringTag then
      match getAttr attrs nameAttr with
      | some v => if v = nameVal then { st with capturingName := true } else st
      | none => st
    else st
  | .endE tag =>
    let st := { st with depth := st.depth - 1 }
    if localName tag = itemTag ∧ st.inSS ∧ st.depth = 1 then { st with inSS := false }
    else st
  | .text t =>
    if st.capturingName then
      if trimChar t = name then { st with isTarget := true, capturingName := false }
      else { st with capturingName := false }
    else st
  | _ => st

/-- Is this event the closing `Item` tag of the captured module (checked
with the already-decremented depth, lines 181–182)? -/
def isModuleClose (st : UState) : XmlEvent → Prop
  | .endE tag => localName tag = itemTag ∧ st.depth = 2
  | _ => False

instance (st : UState) (e : XmlEvent) : Decidable (isModuleClose st e) := by
  cases e <;> simp [isModuleClose] <;> infer_instance

/-- One iteration of the `update_module_script` loop (lines 134–242). -/
def updStep (name src : Str) (st : UState) (e : XmlEvent) : UState :=
  let st1 := updFlags name st e
  if st1.capturing then
    if isModuleClose st1 e then
      if st1.isTarget then
        { st1 with out := st1.out ++ replacementEvents name src,
                   capturing := false, isTarget := false, buffer := [] }
      else
        { st1 with out := st1.out ++ (st1.buffer ++ [e]),
                   capturing := false, isTarget := false, buffer := [] }
    else { st1 with buffer := st1.buffer ++ [e] }
  else { st1 with out := st1.out ++ [e] }

/-- Initial state of the loop locals. -/
def initU : UState := ⟨false, 0, false, [], false, false, []⟩

/-- `update_module_script`: fold the loop over the document's events and
return the writer's output. -/
def update_module_script (doc : List XmlEvent) (name src : Str) : List XmlEvent :=
  (doc.foldl (updStep name src) initU).out

/-! ### `inject_module_script` (xml_handler.rs lines 11–108) -/

/-- Mutable locals of the `inject_module_script` loop. -/
structure IState where
  inSS : Bool
  depth : Int
  out : List XmlEvent
deriving DecidableEq, Repr

/-- One iteration of the `inject_module_script` loop (lines 27–104). -/
def injStep (name src : Str) (st : IState) (e : XmlEvent) : IState :=
  match e with
  | .startE tag attrs =>
    let st := { st with depth := st.depth + 1 }
    let st :=
      if localName tag = itemTag ∧ getAttr attrs classAttr = some ssClass then
        { st with inSS := true }
      else st
    { st with out := st.out ++ [.startE tag attrs] }
  | .endE tag =>
    let st := { st with depth := st.depth - 1 }
    if st.inSS = true ∧ localName tag = itemTag ∧ st.depth = (1 : Int) then
      { st with inSS := false, out := st.out ++ injectionEvents name src ++ [.endE tag] }
    else { st with out := st.out ++ [.endE tag] }
  | e => { st with out := st.out ++ [e] }

/-- The substring probed by the `poly_xml.contains(...)` existence check of
`inject_module_script` (line 14), built from the raw, unescaped name. -/
def namePattern (name : Str) : Str :=
  strL "<string name=\"Name\">" ++ name ++ strL "</string>"

/-- `inject_module_script`: if the name pattern occurs anywhere in the
document's bytes, delegate to `update_module_script`; otherwise append a
fresh module as last child of the `ScriptService` container. -/
def inject_module_script (doc : List XmlEvent) (name src : Str) : List XmlEvent :=
  if namePattern name <:+: serializeEvents doc then
    update_module_script doc name src
  else
    (doc.foldl (injStep name src) ⟨false, 0, []⟩).out

/-! ### `remove_module_script` (xml_handler.rs lines 252–337) -/

/-- Mutable locals of the `remove_module_script` loop. -/
structure RState where
  inSS : Bool
  depth : Int
  capturing : Bool
  buffer : List XmlEvent
  currentName : Str
  capturingNameText : Bool
  out : List XmlEvent
deriving DecidableEq, Repr

/-- The flag updates of the `match &event` block of `remove_module_script`
(lines 268–307). -/
def remFlags (st : RState) : XmlEvent → RState
  | .startE tag attrs =>
    let st := { st with depth := st.depth + 1 }
    if localName tag = itemTag then
      match getAttr attrs classAttr with
      | some v =>
        if v = ssClass then { st with inSS := true }
        else if st.inSS ∧ v = msClass ∧ st.depth = 3 then { st with capturing := true }
        else st
      | none => st
    else if st.capturing ∧ localName tag = stringTag then
      match getAttr attrs nameAttr with
      | some v => if v = nameVal then { st with capturingNameText := true } else st
      | none => st
    else st
  | .endE tag =>
    let st := { st with depth := st.depth - 1 }
    if localName tag = itemTag ∧ st.inSS ∧ st.depth = 1 then { st with inSS := false }
    else st
  | .text t =>
    if st.capturingNameText then
      if ¬ trimChar t = [] then
        { st with currentName := trimChar t, capturingNameText := false }
      else st
    else st
  | _ => st

/-- Closing-`Item` test of the remove loop (lines 313–314). -/
def isItemClose (st : RState) : XmlEvent → Prop
  | .endE tag => localName tag = itemTag ∧ st.depth = 2
  | _ => False

instance (st : RState) (e : XmlEvent) : Decidable (isItemClose st e) := by
  cases e <;> simp [isItemClose] <;> infer_instance

/-- One iteration of the `remove_module_script` loop (lines 266–333). -/
def remStep (name : Str) (st : RState) (e : XmlEvent) : RState :=
  let st1 := remFlags st e
  if st1.capturing then
    if isItemClose st1 e then
      if ¬ st1.currentName = name then
        { st1 with out := st1.out ++ (st1.buffer ++ [e]),
                   capturing := false, currentName := [], buffer := [] }
      else
        { st1 with capturing := false, currentName := [], buffer := [] }
    else { st1 with buffer := st1.buffer ++ [e] }
  else { st1 with out := st1.out ++ [e] }

/-- Initial state of the remove loop locals. -/
def initR : RState := ⟨false, 0, false, [], [], false, []⟩

/-- `remove_module_script`: fold the loop over the document's events and
return the writer's output. -/
def remove_module_script (doc : List XmlEvent) (name : Str) : List XmlEvent :=
  (doc.foldl (remStep name) initR).out

/-! ## A canonical family of well-formed `.poly` documents

`PolyDoc` generates the event sequences of well-formed project documents:
a root element (arbitrary tag, arbitrary leading declaration bytes and
whitespace) containing one `ScriptService` container whose children are
ModuleScript nodes of the canonical shape, interleaved with arbitrary
formatting text.  Each module carries arbitrary internal whitespace, an
arbitrary `Source` payload and an arbitrary `Name` payload, so the family
quantifies over formatting idiosyncrasies. -/

/-- One ModuleScript node: internal whitespace runs, source text and name
text are arbitrary. -/
structure PolyModule where
  wsA : Str
  wsB : Str
  wsC : Str
  wsD : Str
  wsE : Str
  source : Str
  nm : Str
deriving DecidableEq, Repr

/-- The events of one canonical ModuleScript node. -/
def moduleEvents (m : PolyModule) : List XmlEvent :=
  [.startE itemTag [(classAttr, msClass)],
   .text m.wsA,
   .startE propsTag [],
   .text m.wsB,
   .startE stringTag [(nameAttr, sourceVal)],
   .text m.source,
   .endE stringTag,
   .text m.wsC,
   .startE stringTag [(nameAttr, nameVal)],
   .text m.nm,
   .endE stringTag,
   .text m.wsD,
   .endE propsTag,
   .text m.wsE,
   .endE itemTag]

/-- A child of the `ScriptService` container: formatting text or a module. -/
inductive Chunk where
  | gap (t : Str)
  | mod (m : PolyModule)
deriving DecidableEq, Repr

/-- The events of one container child. -/
def chunkEvents : Chunk → List XmlEvent
  | .gap t => [.text t]
  | .mod m => moduleEvents m

/-- A canonical `.poly` document. -/
structure PolyDoc where
  header : Str
  rootTag : Str
  ws0 : Str
  chunks : List Chunk
  ws1 : Str
deriving DecidableEq, Repr

/-- Events up to and including the `ScriptService` opening tag. -/
def docPrefix (d : PolyDoc) : List XmlEvent :=
  [.other d.header, .startE d.rootTag [], .text d.ws0,
   .startE itemTag [(classAttr, ssClass)]]

/-- Events from the `ScriptService` closing tag on. -/
def docSuffix (d : PolyDoc) : List XmlEvent :=
  [.endE itemTag, .text d.ws1, .endE d.rootTag]

/-- The full event sequence of a canonical document. -/
def docEvents (d : PolyDoc) : List XmlEvent :=
  docPrefix d ++ (d.chunks.map chunkEvents).flatten ++ docSuffix d

/-- The module node freshly built from a name and a source text, as both
the inject and the update path construct it. -/
def freshMod (name src : Str) : PolyModule :=
  ⟨ind6, ind8, ind8, ind6, ind4, escapeXml src, escapeXml name⟩

/-- The update path's replacement block is one leading indentation text
followed by a canonical fresh module. -/
theorem replacementEvents_eq_freshMod (name src : Str) :
    replacementEvents name src = .text ind4 :: moduleEvents (freshMod name src) := by
  simp [replacementEvents, moduleEvents, freshMod]

/-! ### Decidable facts about the concrete tags -/

@[simp] theorem localName_item : localName itemTag = itemTag := by decide
@[simp] theorem localName_string : localName stringTag = stringTag := by decide
@[simp] theorem localName_props : localName propsTag = propsTag := by decide
@[simp] theorem string_ne_item : ¬ stringTag = itemTag := by decide
@[simp] theorem props_ne_item : ¬ propsTag = itemTag := by decide
@[simp] theorem props_ne_string : ¬ propsTag = stringTag := by decide
@[simp] theorem ms_ne_ss : ¬ msClass = ssClass := by decide
@[simp] theorem ss_ne_ms : ¬ ssClass = msClass := by decide
@[simp] theorem source_ne_name : ¬ sourceVal = nameVal := by decide
@[simp] theorem getAttr_nil (k : Str) : getAttr [] k = none := rfl
@[simp] theorem getAttr_cons_self (k v : Str) (rest : List (Str × Str)) :
    getAttr ((k, v) :: rest) k = some v := by
  simp [getAttr, List.find?]

/-! ### Characterization of `update_module_script` on canonical documents -/

/-- Loop state at container level: inside `ScriptService`, depth 2, not
capturing, with `out` already emitted. -/
def updReady (out : List XmlEvent) : UState :=
  ⟨true, 2, false, [], false, false, out⟩

/-- A `Start` event with no attributes only bumps the depth and is passed
through (no attribute can match `class` or `name`). -/
theorem updStep_start_nilattrs (name src tag : Str) (st : UState)
    (hc : st.capturing = false) :
    updStep name src st (.startE tag []) =
      { st with depth := st.depth + 1, out := st.out ++ [.startE tag []] } := by
  by_cases h : localName tag = itemTag <;>
    simp [updStep, updFlags, isModuleClose, h, hc]

/-- An `End` event outside `ScriptService` while not capturing only
decrements the depth and is passed through. -/
theorem updStep_end_notSS (name src tag : Str) (st : UState)
    (hss : st.inSS = false) (hc : st.capturing = false) :
    updStep name src st (.endE tag) =
      { st with depth := st.depth - 1, out := st.out ++ [.endE tag] } := by
  by_cases h : localName tag = itemTag <;>
    simp [updStep, updFlags, isModuleClose, h, hss, hc]

/-- A text event while neither capturing a module nor a name is passed
through unchanged. -/
theorem updStep_text_plain (name src t : Str) (st : UState)
    (hcn : st.capturingName = false) (hc : st.capturing = false) :
    updStep name src st (.text t) = { st with out := st.out ++ [.text t] } := by
  simp [updStep, updFlags, isModuleClose, hcn, hc]

/-- A catch-all event while not capturing is passed through unchanged. -/
theorem updStep_other (name src r : Str) (st : UState) (hc : st.capturing = false) :
    updStep name src st (.other r) = { st with out := st.out ++ [.other r] } := by
  simp [updStep, updFlags, isModuleClose, hc]

/-- Folding the update loop over one canonical module from the container
state either re-emits the module's captured events verbatim or, when its
trimmed name text equals the target, emits the replacement block. -/
theorem updStep_module (name src : Str) (m : PolyModule) (out : List XmlEvent) :
    List.foldl (updStep name src) (updReady out) (moduleEvents m) =
      updReady (out ++ (if trimChar m.nm = name then replacementEvents name src
                        else moduleEvents m)) := by
  by_cases h : trimChar m.nm = name <;>
    simp [moduleEvents, updReady, List.foldl, updStep, updFlags, isModuleClose, h]

/-- What one container child becomes under `update_module_script`. -/
def updChunk (name src : Str) : Chunk → List XmlEvent
  | .gap t => [.text t]
  | .mod m => if trimChar m.nm = name then replacementEvents name src
              else moduleEvents m

/-- Folding the update loop over any run of container children from the
container state emits each child's translation in place. -/
theorem updStep_chunks (name src : Str) (cs : List Chunk) :
    ∀ out : List XmlEvent,
      List.foldl (updStep name src) (updReady out) (cs.map chunkEvents).flatten =
        updReady (out ++ (cs.map (updChunk name src)).flatten) := by
  induction cs with
  | nil => intro out; simp [updReady]
  | cons c rest ih =>
    intro out
    cases c with
    | gap t =>
      simp only [List.map_cons, List.flatten_cons, List.foldl_append, chunkEvents]
      have hstep : List.foldl (updStep name src) (updReady out) [.text t] =
          updReady (out ++ [.text t]) := by
        simp [List.foldl, updReady, updStep_text_plain]
      rw [hstep, ih]
      simp [updChunk, List.append_assoc]
    | mod m =>
      simp only [List.map_cons, List.flatten_cons, List.foldl_append, chunkEvents]
      rw [updStep_module, ih]
      simp [updChunk, List.append_assoc]

/-- Full characterization: `update_module_script` on a canonical document
passes the prologue and epilogue through, re-emits every non-matching
module byte-for-byte from its captured events, and replaces every module
whose trimmed name text equals the target with the fresh block. -/
theorem update_module_script_poly (d : PolyDoc) (name src : Str) :
    update_module_script (docEvents d) name src =
      docPrefix d ++ (d.chunks.map (updChunk name src)).flatten ++ docSuffix d := by
  have hpre : List.foldl (updStep name src) initU (docPrefix d) =
      updReady (docPrefix d) := by
    simp only [docPrefix, List.foldl]
    rw [updStep_other name src d.header initU rfl]
    rw [updStep_start_nilattrs name src d.rootTag _ rfl]
    rw [updStep_text_plain name src d.ws0 _ rfl rfl]
    simp [updStep, updFlags, isModuleClose, initU, updReady, docPrefix]
  have hsuf : ∀ out, List.foldl (updStep name src) (updReady out) (docSuffix d) =
      { inSS := false, depth := 0, capturing := false, buffer := [],
        isTarget := false, capturingName := false,
        out := out ++ docSuffix d : UState } := by
    intro out
    simp only [docSuffix, List.foldl]
    have h1 : updStep name src (updReady out) (.endE itemTag) =
        { inSS := false, depth := 1, capturing := false, buffer := [],
          isTarget := false, capturingName := false,
          out := out ++ [.endE itemTag] : UState } := by
      simp [updStep, updFlags, isModuleClose, updReady]
    rw [h1]
    rw [updStep_text_plain name src d.ws1 _ rfl rfl]
    rw [updStep_end_notSS name src d.rootTag _ rfl rfl]
    simp [docSuffix]
  unfold update_module_script docEvents
  rw [List.foldl_append, List.foldl_append, hpre, updStep_chunks, hsuf]

/-! ### Characterization of `inject_module_script` (append path) -/

/-- Inject-loop state at container level. -/
def injReady (out : List XmlEvent) : IState := ⟨true, 2, out⟩

/-- The inject loop passes one container child through unchanged. -/
theorem injStep_chunk (name src : Str) (c : Chunk) (out : List XmlEvent) :
    List.foldl (injStep name src) (injReady out) (chunkEvents c) =
      injReady (out ++ chunkEvents c) := by
  cases c with
  | gap t => simp [chunkEvents, List.foldl, injStep, injReady]
  | mod m => simp [chunkEvents, moduleEvents, List.foldl, injStep, injReady]

/-- The inject loop passes any run of container children through. -/
theorem injStep_chunks (name src : Str) (cs : List Chunk) :
    ∀ out : List XmlEvent,
      List.foldl (injStep name src) (injReady out) (cs.map chunkEvents).flatten =
        injReady (out ++ (cs.map chunkEvents).flatten) := by
  induction cs with
  | nil => intro out; simp [injReady]
  | cons c rest ih =>
    intro out
    simp only [List.map_cons, List.flatten_cons, List.foldl_append]
    rw [injStep_chunk, ih]
    simp [List.append_assoc]

/-- When the name pattern is absent from the document's bytes,
`inject_module_script` appends a fresh canonical module (preceded by its
indentation and followed by the closing tag's indentation) as the last
children of the `ScriptService` container. -/
theorem inject_module_script_poly (d : PolyDoc) (name src : Str)
    (habs : ¬ namePattern name <:+: serializeEvents (docEvents d)) :
    inject_module_script (docEvents d) name src =
      docEvents { d with chunks :=
        d.chunks ++ [.gap ind4, .mod (freshMod name src), .gap ind2] } := by
  have hpre : List.foldl (injStep name src) ⟨false, 0, []⟩ (docPrefix d) =
      injReady (docPrefix d) := by
    by_cases h : localName d.rootTag = itemTag <;>
      simp [docPrefix, List.foldl, injStep, injReady, h]
  have hsuf : ∀ out, List.foldl (injStep name src) (injReady out) (docSuffix d) =
      ({ inSS := false, depth := 0,
         out := out ++ injectionEvents name src ++ docSuffix d : IState }) := by
    intro out
    by_cases h : localName d.rootTag = itemTag <;>
      simp [docSuffix, List.foldl, injStep, injReady, h, List.append_assoc]
  unfold inject_module_script
  rw [if_neg habs]
  show (List.foldl (injStep name src) ⟨false, 0, []⟩ (docEvents d)).out = _
  unfold docEvents
  rw [List.foldl_append, List.foldl_append, hpre, injStep_chunks, hsuf]
  simp only [docEvents, docPrefix, docSuffix, List.map_append, List.flatten_append,
    injectionEvents, replacementEvents_eq_freshMod, List.map_cons, List.flatten_cons,
    chunkEvents]
  simp [List.append_assoc]

/-! ### Characterization of `remove_module_script` on canonical documents -/

/-- Remove-loop state at container level. -/
def remReady (out : List XmlEvent) : RState :=
  ⟨true, 2, false, [], [], false, out⟩

/-- The remove loop passes a container-level text event through. -/
theorem remStep_gap (name t : Str) (st : RState)
    (hcn : st.capturingNameText = false) (hc : st.capturing = false) :
    remStep name st (.text t) = { st with out := st.out ++ [.text t] } := by
  simp [remStep, remFlags, isItemClose, hcn, hc]

/-- Folding the remove loop over one canonical module whose (non-blank)
trimmed name differs from the target re-emits it verbatim. -/
theorem remStep_module (name : Str) (m : PolyModule) (out : List XmlEvent)
    (hne : ¬ trimChar m.nm = name) (hnb : ¬ trimChar m.nm = []) :
    List.foldl (remStep name) (remReady out) (moduleEvents m) =
      remReady (out ++ moduleEvents m) := by
  simp [moduleEvents, remReady, List.foldl, remStep, remFlags, isItemClose, hne, hnb]

/-- The remove loop passes any run of container children through when no
module among them has the target as (non-blank) trimmed name. -/
theorem remStep_chunks (name : Str) (cs : List Chunk)
    (h : ∀ m : PolyModule, Chunk.mod m ∈ cs →
           ¬ trimChar m.nm = name ∧ ¬ trimChar m.nm = []) :
    ∀ out : List XmlEvent,
      List.foldl (remStep name) (remReady out) (cs.map chunkEvents).flatten =
        remReady (out ++ (cs.map chunkEvents).flatten) := by
  induction cs with
  | nil => intro out; simp [remReady]
  | cons c rest ih =>
    intro out
    have hrest : ∀ m : PolyModule, Chunk.mod m ∈ rest →
        ¬ trimChar m.nm = name ∧ ¬ trimChar m.nm = [] := by
      intro m hm; exact h m (List.mem_cons_of_mem _ hm)
    simp only [List.map_cons, List.flatten_cons, List.foldl_append]
    cases c with
    | gap t =>
      have hstep : List.foldl (remStep name) (remReady out) [.text t] =
          remReady (out ++ [.text t]) := by
        simp [List.foldl, remReady, remStep_gap]
      rw [show chunkEvents (Chunk.gap t) = [.text t] from rfl, hstep, ih hrest]
      simp [List.append_assoc]
    | mod m =>
      have hm := h m (by simp)
      rw [show chunkEvents (Chunk.mod m) = moduleEvents m from rfl,
        remStep_module name m out hm.1 hm.2, ih hrest]
      simp [List.append_assoc]

/-- C9 amended.  `remove_module_script` of an absent name returns a
canonical document unchanged, event-for-event (hence byte-for-byte) —
*provided* every module's `Name` text also has a non-blank trim.  The
extra proviso is forced by the counterexample: `capturing_name_text` is
never reset when a module's capture ends, so a blank-named module leaks
the pending capture into the *next* module, whose `Source` text is then
recorded as its name and can spuriously match the target. -/
theorem remove_module_script_poly (d : PolyDoc) (name : Str)
    (h : ∀ m : PolyModule, Chunk.mod m ∈ d.chunks →
           ¬ trimChar m.nm = name ∧ ¬ trimChar m.nm = []) :
    remove_module_script (docEvents d) name = docEvents d := by
  have hpre : List.foldl (remStep name) initR (docPrefix d) =
      remReady (docPrefix d) := by
    by_cases hr : localName d.rootTag = itemTag <;>
      simp [docPrefix, List.foldl, remStep, remFlags, isItemClose, initR, remReady, hr]
  have hsuf : ∀ out, List.foldl (remStep name) (remReady out) (docSuffix d) =
      { inSS := false, depth := 0, capturing := false, buffer := [],
        currentName := [], capturingNameText := false,
        out := out ++ docSuffix d : RState } := by
    intro out
    by_cases hr : localName d.rootTag = itemTag <;>
      simp [docSuffix, List.foldl, remStep, remFlags, isItemClose, remReady,
        List.append_assoc, hr]
  unfold remove_module_script docEvents
  rw [List.foldl_append, List.foldl_append, hpre, remStep_chunks name d.chunks h, hsuf]

/-! ### Serialization helpers -/

/-- Serialization distributes over concatenation of event runs. -/
theorem serializeEvents_append (l₁ l₂ : List XmlEvent) :
    serializeEvents (l₁ ++ l₂) = serializeEvents l₁ ++ serializeEvents l₂ := by
  simp [serializeEvents]

/-- Serialization maps an infix run of events to an infix run of bytes. -/
theorem serializeEvents_mono {l₁ l₂ : List XmlEvent} (h : l₁ <:+: l₂) :
    serializeEvents l₁ <:+: serializeEvents l₂ := by
  rcases h with ⟨s, t, rfl⟩
  exact ⟨serializeEvents s, serializeEvents t, by
    simp [serializeEvents_append]⟩

/-- A member chunk's events form an infix of the flattened chunk run. -/
theorem chunk_events_within {c : Chunk} {cs : List Chunk}
    (h : c ∈ cs) (f : Chunk → List XmlEvent) :
    f c <:+: (cs.map f).flatten := by
  rcases List.append_of_mem h with ⟨s, t, rfl⟩
  exact ⟨(s.map f).flatten, (t.map f).flatten, by
    simp [List.flatten_append]⟩

/-- C5 amended.  Formatting preservation on canonical flat documents:
`update_module_script` emits the prologue, the epilogue and every
container child in place, re-emitting every module whose trimmed name
differs from the target byte-for-byte from its captured raw events (only
target-named modules become the fresh replacement block); in particular
the untouched modules' exact event runs — hence their exact bytes — occur
unchanged in the output.  The restriction to modules without nested
child nodes is forced by the counterexample: a non-target module whose
*descendant* carries a `Name` property equal to the target is itself
replaced (the C7 defect), so the claim is false for arbitrary
documents. -/
theorem c5_update_preserves_other_modules (d : PolyDoc) (name src : Str) :
    (update_module_script (docEvents d) name src =
      docPrefix d ++ (d.chunks.map (updChunk name src)).flatten ++ docSuffix d)
    ∧ (∀ m : PolyModule, Chunk.mod m ∈ d.chunks → ¬ trimChar m.nm = name →
        moduleEvents m <:+: update_module_script (docEvents d) name src) := by
  refine ⟨update_module_script_poly d name src, ?_⟩
  intro m hm hne
  rw [update_module_script_poly d name src]
  have h1 : updChunk name src (Chunk.mod m) = moduleEvents m := by
    simp [updChunk, hne]
  have h2 : moduleEvents m <:+: (d.chunks.map (updChunk name src)).flatten := by
    rw [← h1]
    exact chunk_events_within hm (updChunk name src)
  rcases h2 with ⟨s, t, hst⟩
  exact ⟨docPrefix d ++ s, t ++ docSuffix d, by
    rw [← hst]; simp [List.append_assoc]⟩

/-- One canonical two-module document for the witnesses. -/
def modA : PolyModule :=
  ⟨ind6, ind8, ind8, ind6, ind4, strL "return 1", strL "alpha"⟩

/-- A second canonical module. -/
def modB : PolyModule :=
  ⟨ind6, ind8, ind8, ind6, ind4, strL "return 2", strL "beta"⟩

/-- A canonical document holding `modA` and `modB`. -/
def docAB : PolyDoc :=
  ⟨strL "<?xml version=\"1.0\"?>", strL "roblox", ind2,
   [.gap ind4, .mod modA, .gap ind4, .mod modB], strL "\n"⟩

/-- Witness for C5: updating `beta` in the two-module document leaves
`alpha`'s exact events (hence bytes) in the output. -/
theorem c5_update_preserves_other_modules_witness :
    Chunk.mod modA ∈ docAB.chunks ∧ ¬ trimChar modA.nm = strL "beta" ∧
      moduleEvents modA <:+:
        update_module_script (docEvents docAB) (strL "beta") (strL "new") :=
  ⟨by decide, by decide,
    (c5_update_preserves_other_modules docAB (strL "beta") (strL "new")).2
      modA (by decide) (by decide)⟩

/-! ### C7: depth of the Name-property match -/

/-- A ModuleScript whose own `Name` property is `other` but which contains
a nested child `Item` (a plain `Script`, at depth 4–7) whose `Name`
property is `target`. -/
def nestedModule : List XmlEvent :=
  [.startE itemTag [(classAttr, msClass)],
   .text ind6,
   .startE propsTag [],
   .text ind8,
   .startE stringTag [(nameAttr, nameVal)],
   .text (strL "other"),
   .endE stringTag,
   .text ind8,
   .startE stringTag [(nameAttr, sourceVal)],
   .text (strL "x = 1"),
   .endE stringTag,
   .text ind6,
   .endE propsTag,
   .text ind6,
   .startE itemTag [(classAttr, strL "Script")],
   .startE propsTag [],
   .startE stringTag [(nameAttr, nameVal)],
   .text (strL "target"),
   .endE stringTag,
   .endE propsTag,
   .endE itemTag,
   .text ind4,
   .endE itemTag]

/-- Document events before the nested module. -/
def nestedDocPre : List XmlEvent :=
  [.other (strL "<?xml version=\"1.0\"?>"),
   .startE (strL "roblox") [],
   .text ind2,
   .startE itemTag [(classAttr, ssClass)],
   .text ind4]

/-- Document events after the nested module. -/
def nestedDocPost : List XmlEvent :=
  [.text ind2, .endE itemTag, .text (strL "\n"), .endE (strL "roblox")]

/-- A well-formed document in which the string `target` occurs only as the
`Name` property of a node nested **inside** the single module (the
module's own `Name` is `other`). -/
def nestedDoc : List XmlEvent := nestedDocPre ++ nestedModule ++ nestedDocPost

set_option maxRecDepth 40000 in
/-- Counterexample to C7: the claim entails that updating `target` leaves
this document unchanged (no module's own name is `target`), but the code
changes it: the name-match is accepted at the descendant's depth. -/
theorem c7_counterexample :
    ¬ update_module_script nestedDoc (strL "target") (strL "s") = nestedDoc := by
  decide

set_option maxRecDepth 40000 in
/-- C7 amended: inside a captured module the `Name`-property match is
accepted at any depth, so a module whose *descendant* carries a `Name`
property equal to the target is itself treated as the target and replaced
by the fresh block (only the module-open depth 3 and module-close depth 2
bookkeeping is exact). -/
theorem c7_descendant_name_marks_module :
    update_module_script nestedDoc (strL "target") (strL "s") =
      nestedDocPre ++ replacementEvents (strL "target") (strL "s")
        ++ nestedDocPost := by
  decide

/-! ### C8: idempotence of injection -/

/-- An infix run stays an infix run under surrounding context. -/
theorem infix_extend {α : Type} {l m : List α} (a b : List α) (h : l <:+: m) :
    l <:+: a ++ m ++ b := by
  rcases h with ⟨s, t, rfl⟩
  exact ⟨a ++ s, t ++ b, by simp [List.append_assoc]⟩

/-- Concrete bytes of the `Name`-property opening tag. -/
theorem serializeEvent_nameOpen :
    serializeEvent (.startE stringTag [(nameAttr, nameVal)]) =
      strL "<string name=\"Name\">" := by
  decide

/-- Concrete bytes of the `string` closing tag. -/
theorem serializeEvent_stringClose :
    serializeEvent (.endE stringTag) = strL "</string>" := by
  decide

/-- The serialized `Name` property of a node named `name` is exactly the
substring probed by the injection existence check. -/
theorem serialize_name_triple (name : Str) :
    serializeEvents
        [.startE stringTag [(nameAttr, nameVal)], .text name, .endE stringTag] =
      namePattern name := by
  have h : serializeEvents
      [.startE stringTag [(nameAttr, nameVal)], .text name, .endE stringTag] =
      serializeEvent (.startE stringTag [(nameAttr, nameVal)]) ++
        (serializeEvent (.text name) ++ serializeEvent (.endE stringTag)) := by
    simp [serializeEvents]
  rw [h, serializeEvent_nameOpen, serializeEvent_stringClose]
  simp [serializeEvent, namePattern]

/-- After appending the fresh module, the document's bytes contain the
name pattern, so a second injection takes the update path. -/
theorem pattern_in_injected (d : PolyDoc) (name src : Str)
    (hesc : escapeXml name = name) :
    namePattern name <:+: serializeEvents (docEvents
      { d with chunks := d.chunks ++
          [Chunk.gap ind4, Chunk.mod (freshMod name src), Chunk.gap ind2] }) := by
  have h3 : [XmlEvent.startE stringTag [(nameAttr, nameVal)],
             .text (escapeXml name), .endE stringTag] <:+:
      moduleEvents (freshMod name src) := by
    refine ⟨[.startE itemTag [(classAttr, msClass)], .text ind6, .startE propsTag [],
             .text ind8, .startE stringTag [(nameAttr, sourceVal)],
             .text (escapeXml src), .endE stringTag, .text ind8],
            [.text ind6, .endE propsTag, .text ind4, .endE itemTag], ?_⟩
    simp [moduleEvents, freshMod]
  have h4 : moduleEvents (freshMod name src) <:+:
      (((d.chunks ++
          [Chunk.gap ind4, Chunk.mod (freshMod name src), Chunk.gap ind2]).map
        chunkEvents).flatten) := by
    have := @chunk_events_within (Chunk.mod (freshMod name src))
      (d.chunks ++ [Chunk.gap ind4, Chunk.mod (freshMod name src), Chunk.gap ind2])
      (by simp) chunkEvents
    simpa [chunkEvents] using this
  have h5 := infix_extend (docPrefix d) (docSuffix d) (h3.trans h4)
  have hdoc : docEvents { d with chunks := d.chunks ++
      [Chunk.gap ind4, Chunk.mod (freshMod name src), Chunk.gap ind2] } =
      docPrefix d ++
        (((d.chunks ++
            [Chunk.gap ind4, Chunk.mod (freshMod name src), Chunk.gap ind2]).map
          chunkEvents).flatten) ++ docSuffix d := by
    simp [docEvents, docPrefix, docSuffix]
  rw [hdoc]
  have h6 := serializeEvents_mono h5
  rwa [hesc, serialize_name_triple] at h6

/-- C8 amended: with a name that needs no XML escaping, carries no
surrounding whitespace, does not occur as the name pattern in the original
bytes, and matches no existing module, the first call appends the fresh
module and the second call yields the same document *except* for one
extra `"\n    "` indentation text node inserted immediately before the
re-built module (the update path writes its own leading indentation in
addition to the already re-emitted one). -/
theorem c8_inject_twice_extra_indent (d : PolyDoc) (name src : Str)
    (habs : ¬ namePattern name <:+: serializeEvents (docEvents d))
    (hesc : escapeXml name = name)
    (htrim : trimChar name = name)
    (hmods : ∀ m : PolyModule, Chunk.mod m ∈ d.chunks → ¬ trimChar m.nm = name) :
    inject_module_script (docEvents d) name src =
      docEvents { d with chunks := d.chunks ++
        [Chunk.gap ind4, Chunk.mod (freshMod name src), Chunk.gap ind2] }
    ∧ inject_module_script
        (inject_module_script (docEvents d) name src) name src =
      docEvents { d with chunks := d.chunks ++
        [Chunk.gap ind4, Chunk.gap ind4, Chunk.mod (freshMod name src),
         Chunk.gap ind2] } := by
  have h1 := inject_module_script_poly d name src habs
  refine ⟨h1, ?_⟩
  rw [h1]
  have hpat := pattern_in_injected d name src hesc
  unfold inject_module_script
  rw [if_pos hpat]
  rw [update_module_script_poly]
  have hfresh : updChunk name src (Chunk.mod (freshMod name src)) =
      replacementEvents name src := by
    simp only [updChunk, freshMod]
    rw [if_pos (by rw [hesc, htrim])]
  have hkeep : ∀ c ∈ d.chunks, updChunk name src c = chunkEvents c := by
    intro c hc
    cases c with
    | gap t => simp [updChunk, chunkEvents]
    | mod m => simp [updChunk, chunkEvents, hmods m hc]
  rw [List.map_append, List.map_congr_left hkeep]
  simp only [List.map_cons, List.map_nil, hfresh, replacementEvents_eq_freshMod]
  simp [docEvents, docPrefix, docSuffix, chunkEvents, updChunk,
    List.flatten_append, List.append_assoc]

/-- The empty canonical document used in concrete scenarios. -/
def emptyPolyDoc : PolyDoc :=
  ⟨strL "<?xml version=\"1.0\"?>", strL "roblox", ind2, [], strL "\n"⟩

set_option maxRecDepth 200000 in
/-- Counterexample to C8 as stated: on a document holding only the
canonical container, injecting the same `(name, source)` twice does not
reproduce the document of the first call — the second call inserts an
extra indentation text node. -/
theorem c8_counterexample :
    ¬ inject_module_script
        (inject_module_script (docEvents emptyPolyDoc) (strL "m") (strL "x"))
        (strL "m") (strL "x") =
      inject_module_script (docEvents emptyPolyDoc) (strL "m") (strL "x") := by
  decide

set_option maxRecDepth 200000 in
/-- Witness for C8 amended: the hypotheses hold for the empty canonical
document with name `m` and source `x`. -/
theorem c8_inject_twice_extra_indent_witness :
    inject_module_script
        (inject_module_script (docEvents emptyPolyDoc) (strL "m") (strL "x"))
        (strL "m") (strL "x") =
      docEvents { emptyPolyDoc with chunks :=
        [Chunk.gap ind4, Chunk.gap ind4, Chunk.mod (freshMod (strL "m") (strL "x")),
         Chunk.gap ind2] } := by
  have h := (c8_inject_twice_extra_indent emptyPolyDoc (strL "m") (strL "x")
    (by decide) (by decide) (by decide)
    (by intro m hm; simp [emptyPolyDoc] at hm)).2
  simpa [emptyPolyDoc] using h

/-- Witness for C9: removing the absent name `gamma` from the two-module
document returns it unchanged. -/
theorem c9_remove_absent_witness :
    remove_module_script (docEvents docAB) (strL "gamma") = docEvents docAB :=
  remove_module_script_poly docAB (strL "gamma") (by
    intro m hm
    simp [docAB] at hm
    rcases hm with h | h <;> subst h <;> exact ⟨by decide, by decide⟩)

/-! ## Lock store (`src/cli/src/lockfile.rs`)

`Lockfile.packages` is declared in the source as
`HashMap<String, LockedPackage>` — although the comment right above the
field claims a `BTreeMap` is used "to keep keys sorted for deterministic
output".  `save` serializes through `toml::to_string_pretty`, which emits
the map's entries in the map's own iteration order; a `HashMap`'s
iteration order depends on its per-process random hash state, so the
in-memory map is modelled as the *sequence* of entries in iteration
order, and equal map content is order-equivalence (`List.Perm`). -/

/-- Mirror of `LockedPackage` (lockfile.rs lines 16–22). -/
structure LockedPackage where
  version : Str
  integrity : Str
  dependencies : List (Str × Str)
deriving DecidableEq, Repr

/-- Serialization of the `dependencies` sub-table, one `k = "v"` line per
entry in iteration order. -/
def serializeDepsToml : List (Str × Str) → Str
  | [] => []
  | (k, v) :: rest =>
      k ++ strL " = \"" ++ v ++ strL "\"\n" ++ serializeDepsToml rest

/-- Serialization of one `[packages.<name>]` table. -/
def serializeLockEntry (name : Str) (p : LockedPackage) : Str :=
  strL "[packages." ++ name ++ strL "]\nversion = \"" ++ p.version ++
    strL "\"\nintegrity = \"" ++ p.integrity ++
    strL "\"\n\n[packages." ++ name ++ strL ".dependencies]\n" ++
    serializeDepsToml p.dependencies

/-- `Lockfile::save` (lines 36–40): `toml::to_string_pretty` emits one
table per package, following the `packages` map's iteration order. -/
def lockfileSave (packages : List (Str × LockedPackage)) : Str :=
  (packages.map (fun e => serializeLockEntry e.1 e.2)).flatten

/-- A first lock entry. -/
def lpA : LockedPackage := ⟨strL "1.0.0", strL "aaa111", []⟩

/-- A second lock entry. -/
def lpB : LockedPackage := ⟨strL "2.0.0", strL "bbb222", []⟩

/-- C6 refuted (code bug): two iteration orders of the *same* map content
(a two-entry lockfile) serialize to different bytes, so `save` on equal
in-memory content is not two-run deterministic: the field is a `HashMap`
whose iteration order varies with the per-process hash seed, even though
the source's own comment claims sorted `BTreeMap` keys. -/
theorem c6_hashmap_order_breaks_determinism :
    ([((strL "a"), lpA), ((strL "b"), lpB)] : List (Str × LockedPackage)).Perm
        [((strL "b"), lpB), ((strL "a"), lpA)]
    ∧ ¬ lockfileSave [((strL "a"), lpA), ((strL "b"), lpB)] =
        lockfileSave [((strL "b"), lpB), ((strL "a"), lpA)] := by
  constructor
  · decide
  · decide

/-! ## Dependency resolver (`src/cli/src/installer.rs`)

`resolve_and_install` is embedded with its traversal state threaded
explicitly and the external registry supplied as an oracle environment.
The Rust recursion is unbounded; the embedding takes a fuel parameter and
returns the artificial error `fuelExhausted` when it runs out (no Rust
counterpart — every theorem below either supplies enough fuel or holds
for every fuel).  Two trace fields (`downloads`, `injections`) record the
download and document-injection side effects for counting. -/

/-- Per-version registry metadata: the entry of the
`GET /packages/{name}/versions` response used by the resolver. -/
structure VersionMeta where
  version : Str
  deps : List (Str × Str)
deriving DecidableEq, Repr

/-- The external collaborators of one resolution session:
`latest name` models `GET /packages/{name}` (`none` = not found or no
version field), `versions name` the version list, `download name version`
models `registry::download_from_registry` returning the raw archive bytes
and the resolved version (`none` = network failure), `sha256hex` the
`sha2` crate's digest rendered lowercase-hex, and `extractLua` models
`registry::extract_lua_from_bytes` (`none` = no `.lua` file in the zip). -/
structure RegistryEnv where
  latest : Str → Option Str
  versions : Str → List VersionMeta
  download : Str → Str → Option (Bytes × Str)
  sha256hex : Bytes → Str
  extractLua : Bytes → Option Str

/-- First-match lookup in the lock map (`HashMap::get`). -/
def lookupStr {α : Type} (l : List (Str × α)) (k : Str) : Option α :=
  (l.find? (fun e => e.1 = k)).map (fun e => e.2)

/-- Keyed insert in the lock map (`HashMap::insert`): replaces any
existing binding for the key. -/
def lockInsert (l : List (Str × LockedPackage)) (k : Str) (v : LockedPackage) :
    List (Str × LockedPackage) :=
  (k, v) :: l.filter (fun e => ¬ e.1 = k)

/-- The session state threaded through `resolve_and_install`: the
`visited` set, the `recursion_stack`, the in-memory lockfile, the current
`.poly` document (`none` = no `.poly` file in the directory), and the two
side-effect traces. -/
structure SessionState where
  visited : List Str
  stack : List Str
  lock : List (Str × LockedPackage)
  doc : Option (List XmlEvent)
  downloads : List (Str × Str)
  injections : List Str
deriving DecidableEq, Repr

/-- Resolution errors (installer.rs).  `fuelExhausted` is an artifact of
the bounded embedding of the unbounded Rust recursion. -/
inductive IErr where
  | fuelExhausted
  | invalidFormat
  | packageNotFound (q : Str)
  | versionNotFound (v n : Str)
  | circular (msg : Str)
  | security (name lockedIntegrity hash : Str)
  | downloadFailed (name : Str)
  | noLua
  | noPoly
deriving DecidableEq, Repr

/-- The `" -> "` separator of the cycle diagnostic. -/
def arrowSep : Str := strL " -> "

/-- Step 1 of `resolve_and_install` (lines 55–107): parse `name@version`,
or look up the latest version for a bare name.  A query containing `@`
must split into exactly two pieces; a bare name is resolved through the
registry's latest-version endpoint (deprecation only prints a warning and
is not modelled). -/
def parseQueryE (env : RegistryEnv) (q : Str) : Except IErr (Str × Str) :=
  if '@' ∈ q then
    match splitChar '@' q with
    | [n, v] => .ok (n, v)
    | _ => .error .invalidFormat
  else
    match env.latest q with
    | some v => .ok (q, v)
    | none => .error (.packageNotFound q)

/-- The dependency loop of `resolve_and_install` (lines 148–165): resolve
each `(dep_name, dep_requirement)` in declaration order through the given
resolver `f`, accumulating the resolved versions as `dependencies_map`. -/
def installDepsWith
    (f : Str → SessionState → Except IErr ((Str × Str) × SessionState)) :
    List (Str × Str) → SessionState →
      Except IErr (List (Str × Str) × SessionState)
  | [], st => .ok ([], st)
  | (dn, dv) :: rest, st =>
    match f (dn ++ '@' :: dv) st with
    | .error e => .error e
    | .ok ((_, rv), st1) =>
      match installDepsWith f rest st1 with
      | .error e => .error e
      | .ok (m, st2) => .ok ((dn, rv) :: m, st2)

/-- Steps 7–10 of `resolve_and_install` (lines 198–249), entered once the
integrity check has passed or been skipped: upsert the lock entry, extract
the Lua source, locate the `.poly` document, inject, mark visited, pop the
recursion stack and return the resolved pair. -/
def afterVerify (env : RegistryEnv) (name rv hash : Str) (bytes : Bytes)
    (dm : List (Str × Str)) (st : SessionState) :
    Except IErr ((Str × Str) × SessionState) :=
  let st := { st with lock := lockInsert st.lock name ⟨rv, hash, dm⟩ }
  match env.extractLua bytes with
  | none => .error .noLua
  | some lua =>
    match st.doc with
    | none => .error .noPoly
    | some d =>
      .ok ((name, rv),
        { st with doc := some (inject_module_script d name lua),
                  injections := st.injections ++ [name],
                  visited := name :: st.visited,
                  stack := st.stack.dropLast })

/-- Steps 5–10 of `resolve_and_install` after the dependency loop (lines
167–249): record the download, hash the bytes, run the integrity check
against the lock entry (only when the locked version equals the resolved
version), and finish the install. -/
def verifyAndFinish (env : RegistryEnv) (name version rv : Str) (bytes : Bytes)
    (dm : List (Str × Str)) (st2 : SessionState) :
    Except IErr ((Str × Str) × SessionState) :=
  let st3 := { st2 with downloads := st2.downloads ++ [(name, version)] }
  let hash := env.sha256hex bytes
  match lookupStr st3.lock name with
  | some locked =>
    if locked.version = rv then
      if ¬ locked.integrity = hash then
        .error (.security name locked.integrity hash)
      else afterVerify env name rv hash bytes dm st3
    else afterVerify env name rv hash bytes dm st3
  | none => afterVerify env name rv hash bytes dm st3

/-- `resolve_and_install` (installer.rs lines 39–250). -/
def resolveAndInstall (env : RegistryEnv) :
    Nat → Str → SessionState → Except IErr ((Str × Str) × SessionState)
  | 0, _, _ => .error .fuelExhausted
  | fuel + 1, query, st =>
    match parseQueryE env query with
    | .error e => .error e
    | .ok (name, version) =>
      if name ∈ st.stack then
        .error (.circular (joinSep arrowSep st.stack ++ arrowSep ++ name))
      else if name ∈ st.visited then
        .ok ((name, version), st)
      else
        let st1 := { st with stack := st.stack ++ [name] }
        match (env.versions name).find? (fun v => v.version = version) with
        | none => .error (.versionNotFound version name)
        | some meta =>
          match installDepsWith (resolveAndInstall env fuel) meta.deps st1 with
          | .error e => .error e
          | .ok (dm, st2) =>
            match env.download name version with
            | none => .error (.downloadFailed name)
            | some (bytes, rv) => verifyAndFinish env name version rv bytes dm st2

/-- Fresh session state from the loaded lockfile and the on-disk document. -/
def initState (lock0 : List (Str × LockedPackage)) (doc0 : Option (List XmlEvent)) :
    SessionState :=
  ⟨[], [], lock0, doc0, [], []⟩

/-- `install_package` (lines 16–31): fresh traversal state, resolve, then
save.  The returned lock map is the content written to `mosaic.lock` by
`lockfile.save()`; an error return means the error propagated *before*
the save, so no lockfile is written at all in that session. -/
def installPackage (env : RegistryEnv) (fuel : Nat) (query : Str)
    (lock0 : List (Str × LockedPackage)) (doc0 : Option (List XmlEvent)) :
    Except IErr ((Str × Str) × List (Str × LockedPackage)) :=
  match resolveAndInstall env fuel query (initState lock0 doc0) with
  | .error e => .error e
  | .ok (r, st) => .ok (r, st.lock)

/-! ### Resolver invariants -/

/-- A successful `afterVerify` returns the resolved pair, pops the stack,
and upserts exactly the new lock entry. -/
theorem afterVerify_ok {env : RegistryEnv} {name rv hash : Str} {bytes : Bytes}
    {dm : List (Str × Str)} {st : SessionState} {r : Str × Str}
    {st' : SessionState}
    (h : afterVerify env name rv hash bytes dm st = .ok (r, st')) :
    r = (name, rv) ∧ st'.stack = st.stack.dropLast ∧
      st'.lock = lockInsert st.lock name ⟨rv, hash, dm⟩ := by
  unfold afterVerify at h
  cases hx : env.extractLua bytes with
  | none => rw [hx] at h; exact absurd h (by simp)
  | some lua =>
    rw [hx] at h
    cases hd : st.doc with
    | none => simp only [hd] at h; exact absurd h (by simp)
    | some d =>
      simp only [hd] at h
      injection h with h1
      injection h1 with hr hst
      subst hr; subst hst
      exact ⟨rfl, rfl, rfl⟩

/-- `afterVerify` can only fail with `noLua` or `noPoly`. -/
theorem afterVerify_error_cases {env : RegistryEnv} {name rv hash : Str}
    {bytes : Bytes} {dm : List (Str × Str)} {st : SessionState} {e : IErr}
    (h : afterVerify env name rv hash bytes dm st = .error e) :
    e = .noLua ∨ e = .noPoly := by
  unfold afterVerify at h
  cases hx : env.extractLua bytes with
  | none => rw [hx] at h; injection h with h1; exact Or.inl h1.symm
  | some lua =>
    rw [hx] at h
    cases hd : st.doc with
    | none => simp only [hd] at h; injection h with h1; exact Or.inr h1.symm
    | some d => simp only [hd] at h; exact absurd h (by simp)

/-- A successful `afterVerify` result carries the fresh lock entry for the
installed name. -/
theorem afterVerify_ok_lock {env : RegistryEnv} {name rv hash : Str}
    {bytes : Bytes} {dm : List (Str × Str)} {st : SessionState} {r : Str × Str}
    {st' : SessionState}
    (h : afterVerify env name rv hash bytes dm st = .ok (r, st')) :
    lookupStr st'.lock name = some ⟨rv, hash, dm⟩ := by
  rcases afterVerify_ok h with ⟨-, -, hl⟩
  rw [hl]
  simp [lookupStr, lockInsert, List.find?]

/-- Keyed lookup is unaffected by inserting a different key. -/
theorem lookupStr_lockInsert_ne (l : List (Str × LockedPackage)) (k n : Str)
    (v : LockedPackage) (hne : ¬ n = k) :
    lookupStr (lockInsert l k v) n = lookupStr l n := by
  have hkn : ¬ k = n := fun h => hne h.symm
  unfold lockInsert lookupStr
  rw [List.find?_cons_of_neg _ (by simpa using hkn)]
  induction l with
  | nil => simp
  | cons a rest ih =>
    by_cases hak : a.1 = k
    · rw [List.filter_cons_of_neg (by simpa using hak)]
      rw [List.find?_cons_of_neg _ (by simp [hak]; exact hkn)]
      exact ih
    · rw [List.filter_cons_of_pos (by simpa using hak)]
      by_cases han : a.1 = n
      · rw [List.find?_cons_of_pos _ (by simpa using han),
          List.find?_cons_of_pos _ (by simpa using han)]
      · rw [List.find?_cons_of_neg _ (by simpa using han),
          List.find?_cons_of_neg _ (by simpa using han)]
        exact ih

/-- A successful `verifyAndFinish` returns the resolved pair, pops the
stack and upserts exactly the new lock entry. -/
theorem verifyAndFinish_ok {env : RegistryEnv} {name version rv : Str}
    {bytes : Bytes} {dm : List (Str × Str)} {st2 : SessionState}
    {r : Str × Str} {st' : SessionState}
    (h : verifyAndFinish env name version rv bytes dm st2 = .ok (r, st')) :
    r = (name, rv) ∧ st'.stack = st2.stack.dropLast ∧
      st'.lock = lockInsert st2.lock name ⟨rv, env.sha256hex bytes, dm⟩ := by
  unfold verifyAndFinish at h
  dsimp only at h
  split at h
  · split at h
    · split at h
      · exact Except.noConfusion h
      · have hv := afterVerify_ok h
        exact hv
    · have hv := afterVerify_ok h
      exact hv
  · have hv := afterVerify_ok h
    exact hv

/-- `installDepsWith f` preserves the stack and the lock entries of names
on the stack, whenever `f` does. -/
theorem installDeps_preserves
    (f : Str → SessionState → Except IErr ((Str × Str) × SessionState))
    (hf : ∀ q st r st', f q st = .ok (r, st') →
      st'.stack = st.stack ∧
        ∀ n ∈ st.stack, lookupStr st'.lock n = lookupStr st.lock n) :
    ∀ (ds : List (Str × Str)) (st : SessionState) (dm : List (Str × Str))
      (st' : SessionState),
      installDepsWith f ds st = .ok (dm, st') →
      st'.stack = st.stack ∧
        ∀ n ∈ st.stack, lookupStr st'.lock n = lookupStr st.lock n := by
  intro ds
  induction ds with
  | nil =>
    intro st dm st' h
    unfold installDepsWith at h
    injection h with h1
    injection h1 with _ h2
    subst h2
    exact ⟨rfl, fun n _ => rfl⟩
  | cons d rest ih =>
    intro st dm st' h
    obtain ⟨dn, dv⟩ := d
    unfold installDepsWith at h
    split at h
    · exact Except.noConfusion h
    · next rv1 st1 h1 =>
      split at h
      · exact Except.noConfusion h
      · next m2 st2 h2 =>
        injection h with h3
        injection h3 with _ h4
        subst h4
        obtain ⟨ha1, ha2⟩ := hf _ _ _ _ h1
        obtain ⟨hb1, hb2⟩ := ih st1 m2 st2 h2
        refine ⟨by rw [hb1, ha1], fun n hn => ?_⟩
        rw [hb2 n (by rw [ha1]; exact hn), ha2 n hn]

/-- A successful `resolve_and_install` call restores the recursion stack
and leaves the lock entry of every name still on the stack untouched
(dependency recursion can never overwrite an in-progress package's entry:
re-resolving such a name would have been a cycle error). -/
theorem resolve_preserves (env : RegistryEnv) :
    ∀ (fuel : Nat) (q : Str) (st : SessionState) (r : Str × Str)
      (st' : SessionState),
      resolveAndInstall env fuel q st = .ok (r, st') →
      st'.stack = st.stack ∧
        ∀ n ∈ st.stack, lookupStr st'.lock n = lookupStr st.lock n := by
  intro fuel
  induction fuel with
  | zero =>
    intro q st r st' h
    exact Except.noConfusion h
  | succ fuel ih =>
    intro q st r st' h
    unfold resolveAndInstall at h
    split at h
    · exact Except.noConfusion h
    · next name version hp =>
      split at h
      · exact Except.noConfusion h
      · split at h
        · -- memoized return: state unchanged
          injection h with h1
          injection h1 with _ h2
          subst h2
          exact ⟨rfl, fun n _ => rfl⟩
        · next hstk hvis =>
          dsimp only at h
          split at h
          · exact Except.noConfusion h
          · next meta hm =>
            split at h
            · exact Except.noConfusion h
            · next dm st2 hd =>
              split at h
              · exact Except.noConfusion h
              · next bytes rv hdl =>
                have hvf := verifyAndFinish_ok h
                rcases hvf with ⟨-, h2, h3⟩
                obtain ⟨hs2, hl2⟩ :=
                  installDeps_preserves _ (fun q st r st' h => ih q st r st' h)
                    meta.deps _ dm st2 hd
                constructor
                · rw [h2, hs2]
                  simp
                · intro n hn
                  have hnn : ¬ n = name := fun hEq => hstk (hEq ▸ hn)
                  rw [h3, lookupStr_lockInsert_ne _ _ _ _ hnn]
                  exact hl2 n (by simp [hn])

/-- C1.  Integrity enforcement: whenever a top-level resolution reaches
the download of `name` (parse succeeds, the version's metadata exists,
all dependencies install), the loaded lockfile already holds an entry for
`name` whose locked version equals the resolved version, and the SHA-256
hex digest of the downloaded bytes differs from the locked digest, then
`resolve_and_install` fails with the security (hash-mismatch) error and
`install_package` propagates that error before its save — so no lockfile
is written in the session. -/
theorem c1_security_mismatch_blocks_lock
    (env : RegistryEnv) (fuel : Nat) (lock0 : List (Str × LockedPackage))
    (doc0 : Option (List XmlEvent)) (query name version : Str)
    (meta : VersionMeta) (dm : List (Str × Str)) (st2 : SessionState)
    (bytes : Bytes) (rv : Str) (locked : LockedPackage)
    (hparse : parseQueryE env query = .ok (name, version))
    (hmeta : (env.versions name).find? (fun v => v.version = version) = some meta)
    (hdeps : installDepsWith (resolveAndInstall env fuel) meta.deps
      ⟨[], [name], lock0, doc0, [], []⟩ = .ok (dm, st2))
    (hdl : env.download name version = some (bytes, rv))
    (hlock : lookupStr lock0 name = some locked)
    (hver : locked.version = rv)
    (hmis : ¬ locked.integrity = env.sha256hex bytes) :
    resolveAndInstall env (fuel + 1) query (initState lock0 doc0) =
      .error (.security name locked.integrity (env.sha256hex bytes))
    ∧ installPackage env (fuel + 1) query lock0 doc0 =
      .error (.security name locked.integrity (env.sha256hex bytes)) := by
  have hlk2 : lookupStr st2.lock name = some locked := by
    obtain ⟨hs, hl⟩ := installDeps_preserves (resolveAndInstall env fuel)
      (fun q st r st' h => resolve_preserves env fuel q st r st' h) meta.deps
      ⟨[], [name], lock0, doc0, [], []⟩ dm st2 hdeps
    have hx := hl name (by simp)
    rw [hx]
    exact hlock
  have h1 : resolveAndInstall env (fuel + 1) query (initState lock0 doc0) =
      .error (.security name locked.integrity (env.sha256hex bytes)) := by
    show resolveAndInstall env (fuel + 1) query ⟨[], [], lock0, doc0, [], []⟩ = _
    simp only [resolveAndInstall, hparse]
    rw [if_neg (List.not_mem_nil name), if_neg (List.not_mem_nil name)]
    simp only [List.nil_append, hmeta, hdeps, hdl]
    unfold verifyAndFinish
    dsimp only
    simp only [hlk2]
    rw [if_pos hver, if_pos hmis]
  exact ⟨h1, by simp only [installPackage, h1]⟩

/-- Concrete registry for the integrity scenarios: one package `x` with
version `1.0.0` and no dependencies; every download digests to
`deadbeef`. -/
def envIntegrity : RegistryEnv :=
  { latest := fun _ => none
    versions := fun n => if n = strL "x" then [⟨strL "1.0.0", []⟩] else []
    download := fun n v =>
      if n = strL "x" ∧ v = strL "1.0.0" then some ([7], strL "1.0.0") else none
    sha256hex := fun _ => strL "deadbeef"
    extractLua := fun _ => some (strL "code") }

/-- A loaded lockfile pinning `x@1.0.0` with a different digest `cafe`. -/
def lockPinned : List (Str × LockedPackage) :=
  [(strL "x", ⟨strL "1.0.0", strL "cafe", []⟩)]

/-- Witness for C1: re-resolving `x@1.0.0` against the `cafe` pin while
the download digests to `deadbeef` aborts with the security error and no
lockfile is saved. -/
theorem c1_security_mismatch_blocks_lock_witness :
    resolveAndInstall envIntegrity 2 (strL "x@1.0.0") (initState lockPinned none) =
      .error (.security (strL "x") (strL "cafe") (strL "deadbeef"))
    ∧ installPackage envIntegrity 2 (strL "x@1.0.0") lockPinned none =
      .error (.security (strL "x") (strL "cafe") (strL "deadbeef")) :=
  c1_security_mismatch_blocks_lock envIntegrity 1 lockPinned none
    (strL "x@1.0.0") (strL "x") (strL "1.0.0") ⟨strL "1.0.0", []⟩ []
    ⟨[], [strL "x"], lockPinned, none, [], []⟩ [7] (strL "1.0.0")
    ⟨strL "1.0.0", strL "cafe", []⟩
    (by decide) (by decide) (by decide) (by decide) (by decide) (by decide)
    (by decide)

/-- C2.  Upgrade bypass: when the loaded lockfile's entry for `name` has a
locked version *different* from the resolved version, the resolution
proceeds straight past the verification step with no digest comparison
(its outcome is independent of the locked digest): it can only fail for
missing-Lua or missing-`.poly` reasons — never with the security error —
and on success the lock entry is overwritten unconditionally with the new
version and the new digest. -/
theorem c2_upgrade_bypass
    (env : RegistryEnv) (fuel : Nat) (lock0 : List (Str × LockedPackage))
    (doc0 : Option (List XmlEvent)) (query name version : Str)
    (meta : VersionMeta) (dm : List (Str × Str)) (st2 : SessionState)
    (bytes : Bytes) (rv : Str) (locked : LockedPackage)
    (hparse : parseQueryE env query = .ok (name, version))
    (hmeta : (env.versions name).find? (fun v => v.version = version) = some meta)
    (hdeps : installDepsWith (resolveAndInstall env fuel) meta.deps
      ⟨[], [name], lock0, doc0, [], []⟩ = .ok (dm, st2))
    (hdl : env.download name version = some (bytes, rv))
    (hlock : lookupStr lock0 name = some locked)
    (hver : ¬ locked.version = rv) :
    resolveAndInstall env (fuel + 1) query (initState lock0 doc0) =
      afterVerify env name rv (env.sha256hex bytes) bytes dm
        { st2 with downloads := st2.downloads ++ [(name, version)] }
    ∧ (∀ e, resolveAndInstall env (fuel + 1) query (initState lock0 doc0) =
          .error e → e = .noLua ∨ e = .noPoly)
    ∧ (∀ r st', resolveAndInstall env (fuel + 1) query (initState lock0 doc0) =
          .ok (r, st') → r = (name, rv) ∧
            lookupStr st'.lock name = some ⟨rv, env.sha256hex bytes, dm⟩) := by
  have hlk2 : lookupStr st2.lock name = some locked := by
    obtain ⟨hs, hl⟩ := installDeps_preserves (resolveAndInstall env fuel)
      (fun q st r st' h => resolve_preserves env fuel q st r st' h) meta.deps
      ⟨[], [name], lock0, doc0, [], []⟩ dm st2 hdeps
    have hx := hl name (by simp)
    rw [hx]
    exact hlock
  have h1 : resolveAndInstall env (fuel + 1) query (initState lock0 doc0) =
      afterVerify env name rv (env.sha256hex bytes) bytes dm
        { st2 with downloads := st2.downloads ++ [(name, version)] } := by
    show resolveAndInstall env (fuel + 1) query ⟨[], [], lock0, doc0, [], []⟩ = _
    simp only [resolveAndInstall, hparse]
    rw [if_neg (List.not_mem_nil name), if_neg (List.not_mem_nil name)]
    simp only [List.nil_append, hmeta, hdeps, hdl]
    unfold verifyAndFinish
    dsimp only
    simp only [hlk2]
    rw [if_neg hver]
  refine ⟨h1, fun e he => ?_, fun r st' hok => ?_⟩
  · rw [h1] at he
    exact afterVerify_error_cases he
  · rw [h1] at hok
    have hx := afterVerify_ok hok
    exact ⟨hx.1, afterVerify_ok_lock hok⟩

/-- Concrete registry for the upgrade scenario: `x` now at `2.0.0`. -/
def envUpgrade : RegistryEnv :=
  { latest := fun _ => none
    versions := fun n => if n = strL "x" then [⟨strL "2.0.0", []⟩] else []
    download := fun n v =>
      if n = strL "x" ∧ v = strL "2.0.0" then some ([7], strL "2.0.0") else none
    sha256hex := fun _ => strL "deadbeef"
    extractLua := fun _ => some (strL "code") }

/-- Witness for C2: upgrading `x` from the `1.0.0`/`cafe` pin to `2.0.0`
reaches the post-verification continuation with no digest comparison. -/
theorem c2_upgrade_bypass_witness :
    resolveAndInstall envUpgrade 2 (strL "x@2.0.0")
        (initState lockPinned (some (docEvents emptyPolyDoc))) =
      afterVerify envUpgrade (strL "x") (strL "2.0.0") (strL "deadbeef") [7] []
        ⟨[], [strL "x"], lockPinned, some (docEvents emptyPolyDoc),
         [(strL "x", strL "2.0.0")], []⟩ :=
  (c2_upgrade_bypass envUpgrade 1 lockPinned (some (docEvents emptyPolyDoc))
    (strL "x@2.0.0") (strL "x") (strL "2.0.0") ⟨strL "2.0.0", []⟩ []
    ⟨[], [strL "x"], lockPinned, some (docEvents emptyPolyDoc), [], []⟩ [7]
    (strL "2.0.0") ⟨strL "1.0.0", strL "cafe", []⟩
    (by decide) (by decide) (by decide) (by decide) (by decide) (by decide)).1

/-- The A→B→C→A registry: each package at version `1`, `C` depending back
on `A`. -/
def envCycle : RegistryEnv :=
  { latest := fun n => if n = strL "A" then some (strL "1") else none
    versions := fun n =>
      if n = strL "A" then [⟨strL "1", [(strL "B", strL "1")]⟩]
      else if n = strL "B" then [⟨strL "1", [(strL "C", strL "1")]⟩]
      else if n = strL "C" then [⟨strL "1", [(strL "A", strL "1")]⟩]
      else []
    download := fun _ v => some ([0], v)
    sha256hex := fun _ => strL "h"
    extractLua := fun _ => some (strL "code") }

set_option maxRecDepth 40000 in
/-- C3.  Cycle detection: whenever the parsed name is already on the
recursion stack, `resolve_and_install` fails immediately — before the
stack, the visited set or the lockfile is touched (the error return
carries no successor state, and the check precedes even the memoization
test) — with a `CircularDependency` message listing every stack entry in
order followed by the repeated name; concretely, resolving `A` in the
graph A→B→C→A reports `A -> B -> C -> A`. -/
theorem c3_cycle_detected (env : RegistryEnv) (fuel : Nat) (st : SessionState)
    (query name version : Str)
    (hparse : parseQueryE env query = .ok (name, version))
    (hmem : name ∈ st.stack) :
    resolveAndInstall env (fuel + 1) query st =
      .error (.circular (joinSep arrowSep (st.stack ++ [name])))
    ∧ resolveAndInstall envCycle 9 (strL "A")
        (initState [] (some (docEvents emptyPolyDoc))) =
      .error (.circular (strL "A -> B -> C -> A")) := by
  constructor
  · have hne : st.stack ≠ [] := by
      intro hh
      rw [hh] at hmem
      exact List.not_mem_nil name hmem
    simp only [resolveAndInstall, hparse]
    rw [if_pos hmem, ← joinSep_append_singleton arrowSep name st.stack hne]
  · decide

/-- Witness for C3: with the stack `[A, B, C]`, resolving `A@1` fails
reporting the full cycle path. -/
theorem c3_cycle_detected_witness :
    resolveAndInstall envCycle 1 (strL "A@1")
        ⟨[], [strL "A", strL "B", strL "C"], [], none, [], []⟩ =
      .error (.circular (strL "A -> B -> C -> A")) :=
  (c3_cycle_detected envCycle 0
    ⟨[], [strL "A", strL "B", strL "C"], [], none, [], []⟩
    (strL "A@1") (strL "A") (strL "1") (by decide) (by decide)).1

/-- The diamond registry A→B, A→C, B→D, C→D, every package at version
`1`. -/
def envDiamond : RegistryEnv :=
  { latest := fun n => if n = strL "A" then some (strL "1") else none
    versions := fun n =>
      if n = strL "A" then
        [⟨strL "1", [(strL "B", strL "1"), (strL "C", strL "1")]⟩]
      else if n = strL "B" then [⟨strL "1", [(strL "D", strL "1")]⟩]
      else if n = strL "C" then [⟨strL "1", [(strL "D", strL "1")]⟩]
      else if n = strL "D" then [⟨strL "1", []⟩]
      else []
    download := fun _ v => some ([0], v)
    sha256hex := fun _ => strL "h"
    extractLua := fun _ => some (strL "code") }

set_option maxRecDepth 1000000 in
/-- C4.  Memoization: whenever the parsed name is already in the visited
set (and not on the stack), `resolve_and_install` returns the resolved
pair immediately with the session state untouched — no download, no
verification, no lock upsert, no injection; and concretely, resolving `A`
over the diamond A→B, A→C, B→D, C→D downloads `D` once, injects `D` once,
and leaves exactly one lock entry for `D`. -/
theorem c4_memoized_skip (env : RegistryEnv) (fuel : Nat) (st : SessionState)
    (query name version : Str)
    (hparse : parseQueryE env query = .ok (name, version))
    (hstk : name ∉ st.stack) (hvis : name ∈ st.visited) :
    resolveAndInstall env (fuel + 1) query st = .ok ((name, version), st)
    ∧ (match resolveAndInstall envDiamond 9 (strL "A")
          (initState [] (some (docEvents emptyPolyDoc))) with
       | .ok (_, stF) =>
          ((stF.downloads.filter (fun p => p.1 = strL "D")).length == 1 &&
           (stF.injections.filter (fun n => n = strL "D")).length == 1 &&
           (stF.lock.filter (fun p => p.1 = strL "D")).length == 1)
       | .error _ => false) = true := by
  constructor
  · simp only [resolveAndInstall, hparse]
    rw [if_neg hstk, if_pos hvis]
  · decide

/-- Witness for C4: with `D` already visited (resolving under `C`), the
call returns immediately and the state is untouched. -/
theorem c4_memoized_skip_witness :
    resolveAndInstall envDiamond 1 (strL "D@1")
        ⟨[strL "D"], [strL "C"], [], none, [], []⟩ =
      .ok ((strL "D", strL "1"), ⟨[strL "D"], [strL "C"], [], none, [], []⟩) :=
  (c4_memoized_skip envDiamond 0 ⟨[strL "D"], [strL "C"], [], none, [], []⟩
    (strL "D@1") (strL "D") (strL "1") (by decide) (by decide) (by decide)).1

/-! ### C10: query parsing -/

/-- Counterexample to C10: the query `"@1.0.0"` — an `@` with an empty
name part — is *not* rejected as malformed: `split('@')` yields exactly
two pieces (`""` and `"1.0.0"`), so parsing succeeds with the empty name,
and resolution proceeds to (and fails at) the version lookup instead of
failing with the invalid-format error. -/
theorem c10_counterexample :
    parseQueryE envCycle (strL "@1.0.0") = .ok ([], strL "1.0.0")
    ∧ resolveAndInstall envCycle 1 (strL "@1.0.0") (initState [] none) =
      .error (.versionNotFound (strL "1.0.0") []) := by
  constructor
  · decide
  · decide

/-- C10 amended: every successfully parsed query yields a name containing
no `@` (the split pieces cannot contain the separator, and a bare query
reaching the latest-version lookup contains none) — but the name may be
empty, and empty-name queries such as `"@1.0.0"` are parsed rather than
rejected. -/
theorem c10_parsed_name_has_no_at (env : RegistryEnv) (q name version : Str)
    (h : parseQueryE env q = .ok (name, version)) :
    '@' ∉ name := by
  unfold parseQueryE at h
  by_cases hq : '@' ∈ q
  · rw [if_pos hq] at h
    split at h
    · next n v heq =>
      injection h with h1
      injection h1 with h2 h3
      subst h2
      refine splitChar_no_sep '@' q _ ?_
      rw [heq]
      simp
    · exact Except.noConfusion h
  · rw [if_neg hq] at h
    cases hl : env.latest q with
    | none => rw [hl] at h; exact Except.noConfusion h
    | some v =>
      rw [hl] at h
      injection h with h1
      injection h1 with h2 h3
      subst h2
      exact hq

/-- Witness for C10 amended: parsing `a@b` yields the name `a`, which
contains no `@`. -/
theorem c10_parsed_name_has_no_at_witness : '@' ∉ strL "a" :=
  c10_parsed_name_has_no_at envCycle (strL "a@b") (strL "a") (strL "b")
    (by decide)

/-! ### Counterexamples to C5 and C9 as stated -/

/-- A canonical module genuinely named `target`. -/
def targetMod : PolyModule :=
  ⟨ind6, ind8, ind8, ind6, ind4, strL "t()", strL "target"⟩

/-- A well-formed document with two modules: one named `target`, and the
`other`-named `nestedModule` whose nested descendant carries a `Name`
property `target`. -/
def mixedDoc : List XmlEvent :=
  nestedDocPre ++ moduleEvents targetMod ++ [.text ind4]
    ++ nestedModule ++ nestedDocPost

set_option maxRecDepth 200000 in
/-- Counterexample to C5 as stated: in `mixedDoc` the module named
`other` is one of the non-target modules (its own `Name` is `other`),
yet updating `target` does not leave its bytes identical — its event run
is present in the input but absent from the output, because both it and
the `target` module are replaced by the fresh block. -/
theorem c5_counterexample :
    nestedModule <:+: mixedDoc
    ∧ ¬ nestedModule <:+:
        update_module_script mixedDoc (strL "target") (strL "s")
    ∧ update_module_script mixedDoc (strL "target") (strL "s") =
        nestedDocPre ++ replacementEvents (strL "target") (strL "s")
          ++ [.text ind4] ++ replacementEvents (strL "target") (strL "s")
          ++ nestedDocPost := by
  refine ⟨by decide, by decide, by decide⟩

/-- A canonical module whose `Name` text is a single blank. -/
def blankMod : PolyModule :=
  ⟨ind6, ind8, ind8, ind6, ind4, strL "print(0)", strL " "⟩

/-- A second blank-named canonical module whose `Source` text is
`gamma`. -/
def gammaSrcMod : PolyModule :=
  ⟨ind6, ind8, ind8, ind6, ind4, strL "gamma", strL " "⟩

/-- A canonical document holding the two blank-named modules: no module
node's `Name` property equals `gamma`. -/
def docBlank : PolyDoc :=
  ⟨strL "<?xml version=\"1.0\"?>", strL "roblox", ind2,
   [.gap ind4, .mod blankMod, .gap ind4, .mod gammaSrcMod], strL "\n"⟩

set_option maxRecDepth 200000 in
/-- Counterexample to C9 as stated: neither module of `docBlank` is named
`gamma` (both `Name` texts are blank), yet removing `gamma` does not
return the document unchanged — the never-reset `capturing_name_text`
flag makes the second module's `Source` text `gamma` pass for its name,
and that module is deleted. -/
theorem c9_counterexample :
    ¬ trimChar blankMod.nm = strL "gamma"
    ∧ ¬ trimChar gammaSrcMod.nm = strL "gamma"
    ∧ ¬ remove_module_script (docEvents docBlank) (strL "gamma") =
        docEvents docBlank
    ∧ remove_module_script (docEvents docBlank) (strL "gamma") =
        docEvents ⟨strL "<?xml version=\"1.0\"?>", strL "roblox", ind2,
          [.gap ind4, .mod blankMod, .gap ind4], strL "\n"⟩ := by
  refine ⟨by decide, by decide, by decide, by decide⟩
